import Mathlib

/-!
# Leica DMI scope interface

A shallow embedding of `DeviceAdapters/LeicaDMI/LeicaDMIScopeInterface.h`: the three
classes `LeicaScopeInterface`, `LeicaMessageParser` and `LeicaMonitoringThread`, with
their data members as structure fields and their inline member functions as functions
from the object before the call to the result and the object after it.

Member functions that the header only declares are given from the specification and are
marked as such.
-/

namespace LeicaDMI

/-- An `unsigned char`. -/
abbrev UByte := Fin 256

/-- A raw pointer or a C++ reference to an object owned elsewhere, kept as its address. -/
abbrev Addr := Nat

/-! ## `class LeicaScopeInterface` -/

/-- The constant `static const int RCV_BUF_LENGTH = 1024;` of `LeicaScopeInterface`. -/
def LeicaScopeInterface.RCV_BUF_LENGTH : Nat := 1024

/-- The data members of `LeicaScopeInterface`, public ones first, in the order of the
header. `MM::MMTime` comes from `MMDevice.h`, which is outside this file, and is a
parameter. `rcvBuf_` is the array `unsigned char rcvBuf_[RCV_BUF_LENGTH]`. -/
structure LeicaScopeInterface (MMTime : Type) where
  monitoringThread_ : Addr
  port_ : String
  portInitialized_ : Bool
  rcvBuf_ : Mathlib.Vector UByte LeicaScopeInterface.RCV_BUF_LENGTH
  timeOutTime_ : MMTime
  version_ : String
  initialized_ : Bool

namespace LeicaScopeInterface

variable {MMTime : Type}

/-- The inline member `MM::MMTime GetTimeOutTime(){ return timeOutTime_;}`: the returned
value and the object after the call. -/
def GetTimeOutTime (self : LeicaScopeInterface MMTime) : MMTime × LeicaScopeInterface MMTime :=
  (self.timeOutTime_, self)

/-- The inline member
`void SetTimeOutTime(MM::MMTime timeOutTime) { timeOutTime_ = timeOutTime;}`. -/
def SetTimeOutTime (self : LeicaScopeInterface MMTime) (timeOutTime : MMTime) :
    LeicaScopeInterface MMTime :=
  { self with timeOutTime_ := timeOutTime }

/-- Modelled from the spec: the body of `signatureFound`, which the header only declares
(`bool signatureFound(unsigned char* answer, unsigned char* signature, unsigned long
signatureStart, unsigned long signatureLength)`). The spec gives it as an exact byte
comparison over a fixed-length window: position `i` of the window compares
`answer[signatureStart + i]` with `signature[i]`, for every `i < signatureLength`. A
position that lies outside either buffer is no match. -/
def signatureFound (answer signature : List UByte) (signatureStart signatureLength : Nat) :
    Bool :=
  (List.range signatureLength).all fun i =>
    match answer[signatureStart + i]?, signature[i]? with
    | some a, some s => a == s
    | _, _ => false

end LeicaScopeInterface

/-! ## `class LeicaMonitoringThread` -/

/-- The data members of `LeicaMonitoringThread`. The state of the base class
`MMDeviceThreadBase` (from `DeviceThreads.h`, outside this file) is a parameter;
`device_` and `core_` are references. -/
structure LeicaMonitoringThread (ThreadBase : Type) where
  toMMDeviceThreadBase : ThreadBase
  port_ : String
  device_ : Addr
  core_ : Addr
  stop_ : Bool
  intervalUs_ : Int

namespace LeicaMonitoringThread

variable {ThreadBase : Type}

/-- The inline member `void Stop() {stop_ = true;}`. -/
def Stop (self : LeicaMonitoringThread ThreadBase) : LeicaMonitoringThread ThreadBase :=
  { self with stop_ := true }

end LeicaMonitoringThread

/-! ## `class LeicaMessageParser` -/

/-- The constant `static const int messageMaxLength_ = 64;` of `LeicaMessageParser`. -/
def LeicaMessageParser.messageMaxLength_ : Nat := 64

/-- Modelled from the spec: the wire format the framer depends on, which is neither in the
header nor spelled out in the spec, so both of its parts are parameters. `signature` is
the fixed start signature every message begins with, a pattern of at least one byte.
`spanLength` is the length/terminator rule that makes a message self-delimiting: applied to
the bytes of the input from a matched signature on, it gives the number of bytes of the
span that starts there once the end of that span is recognised, and `none` as long as it
is not. -/
structure WireFormat where
  signature : List UByte
  signature_ne_nil : signature ≠ []
  spanLength : List UByte → Option Nat

/-- The data members of `LeicaMessageParser`: the input (`unsigned char* inputStream_`
with its `long inputStreamLength_`) and the cursor `long index_`. -/
structure LeicaMessageParser where
  inputStream_ : List UByte
  inputStreamLength_ : Nat
  index_ : Nat
  deriving DecidableEq, Repr

namespace LeicaMessageParser

open LeicaScopeInterface (signatureFound)

/-- Modelled from the spec: the constructor `LeicaMessageParser(unsigned char* inputStream,
long inputStreamLength)`, declared in the header only. A parser constructed over a stream
starts with its cursor at the first byte. -/
def init (inputStream : List UByte) (inputStreamLength : Nat) : LeicaMessageParser :=
  { inputStream_ := inputStream, inputStreamLength_ := inputStreamLength, index_ := 0 }

/-- The bytes the parser may read: the first `inputStreamLength_` bytes at `inputStream_`. -/
def stream (self : LeicaMessageParser) : List UByte :=
  self.inputStream_.take self.inputStreamLength_

/-- Modelled from the spec: the scan of `GetNextMessage` (§4.1), whose body is not in the
header. From the cursor `index` on it looks for the start signature, by `signatureFound`.
* No room is left for a signature: nothing parseable yet; the cursor stays where the scan
  stopped.
* The signature matches at `index` and the length/terminator rule does not see the end of
  the span: nothing parseable yet; the cursor stays at the signature.
* The signature matches and the span has at most `messageMaxLength_` bytes: these bytes
  are the message, and the cursor moves past them.
* The signature matches and the span would exceed `messageMaxLength_`: the span is noise;
  it is skipped and the scan goes on behind it.
* No match at `index`: the scan goes on at the next byte.
The first argument bounds the number of steps; `GetNextMessage` passes enough. The result
is the message, or `none` for "no message yet", and the cursor after the call. -/
def scan (w : WireFormat) (stream : List UByte) : Nat → Nat → Option (List UByte) × Nat
  | 0, index => (none, index)
  | fuel + 1, index =>
    if stream.length < index + w.signature.length then (none, index)
    else if signatureFound stream w.signature index w.signature.length then
      match w.spanLength (stream.drop index) with
      | none => (none, index)
      | some len =>
        if len ≤ messageMaxLength_ then (some ((stream.drop index).take len), index + len)
        else scan w stream fuel (index + len)
    else scan w stream fuel (index + 1)

/-- Modelled from the spec: `int GetNextMessage(unsigned char* nextMessage, int&
nextMessageLength)`, declared in the header only. The result is the message written to
`nextMessage` (its length is `nextMessageLength`), or `none` when the call reports that no
message is available, and the parser after the call. Every step of the scan moves the
cursor forward inside the input, so one step more than the input has bytes is enough. -/
def GetNextMessage (w : WireFormat) (self : LeicaMessageParser) :
    Option (List UByte) × LeicaMessageParser :=
  let r := scan w self.stream (self.stream.length + 1) self.index_
  (r.1, { self with index_ := r.2 })

/-- The cursor positions at which a scan ends with "no message yet": no room is left for
a signature, or a signature is there and the end of its span is not. -/
def Stops (w : WireFormat) (stream : List UByte) (index : Nat) : Prop :=
  stream.length < index + w.signature.length ∨
    (signatureFound stream w.signature index w.signature.length = true ∧
      w.spanLength (stream.drop index) = none)

/-- A span of the wire format: it begins with the start signature, and the
length/terminator rule, applied where it starts, delimits exactly it, whatever follows. -/
def IsSpan (w : WireFormat) (span : List UByte) : Prop :=
  w.signature <+: span ∧ ∀ rest, w.spanLength (span ++ rest) = some span.length

end LeicaMessageParser

/-! ## A concrete wire format -/

/-- A wire format with the two-byte start signature `10 02` in which a span ends at its
first byte `03`. -/
def exampleFormat : WireFormat where
  signature := [0x10, 0x02]
  signature_ne_nil := by decide
  spanLength := fun bytes => (bytes.indexOf? 0x03).map (· + 1)

end LeicaDMI

/-! ## Theorems -/

namespace LeicaDMI

open LeicaMessageParser LeicaScopeInterface LeicaMonitoringThread

/-! ### The time-out accessors -/

/-- C1: on every state and for every duration `d`, `GetTimeOutTime()` called after
`SetTimeOutTime(d)` returns exactly `d`, and after a later `SetTimeOutTime(d2)` it returns
`d2`: the last write wins. -/
theorem getTimeOutTime_setTimeOutTime {MMTime : Type} (s : LeicaScopeInterface MMTime)
    (d d2 : MMTime) :
    (GetTimeOutTime (SetTimeOutTime s d)).1 = d ∧
      (GetTimeOutTime (SetTimeOutTime (SetTimeOutTime s d) d2)).1 = d2 :=
  ⟨rfl, rfl⟩

/-- C10: `SetTimeOutTime(d)` changes `timeOutTime_` only: `port_`, `portInitialized_`,
`rcvBuf_`, `version_`, `initialized_` and `monitoringThread_` are the same before and
after the call; and `GetTimeOutTime()` leaves the whole object as it was. -/
theorem setTimeOutTime_frame {MMTime : Type} (s : LeicaScopeInterface MMTime) (d : MMTime) :
    ((SetTimeOutTime s d).port_ = s.port_ ∧
      (SetTimeOutTime s d).portInitialized_ = s.portInitialized_ ∧
      (SetTimeOutTime s d).rcvBuf_ = s.rcvBuf_ ∧
      (SetTimeOutTime s d).version_ = s.version_ ∧
      (SetTimeOutTime s d).initialized_ = s.initialized_ ∧
      (SetTimeOutTime s d).monitoringThread_ = s.monitoringThread_) ∧
    (GetTimeOutTime s).2 = s :=
  ⟨⟨rfl, rfl, rfl, rfl, rfl, rfl⟩, rfl⟩

/-! ### The receive buffer -/

/-- C7: `RCV_BUF_LENGTH` is 1024, `rcvBuf_` has exactly `RCV_BUF_LENGTH` elements in every
scope interface, and `messageMaxLength_` is 64, which is at most the capacity of the
buffer: a message of the maximum length fits. -/
theorem rcvBuf_capacity {MMTime : Type} :
    RCV_BUF_LENGTH = 1024 ∧
      (∀ s : LeicaScopeInterface MMTime, s.rcvBuf_.toList.length = RCV_BUF_LENGTH) ∧
      messageMaxLength_ = 64 ∧ messageMaxLength_ ≤ RCV_BUF_LENGTH :=
  ⟨rfl, fun s => s.rcvBuf_.toList_length, rfl, by decide⟩

/-! ### The monitoring thread -/

/-- C6: `Stop()` leaves `stop_` set to true whatever it was before, changes no other
member of the thread (`port_`, `intervalUs_`, the two references and the base class), and
calling it twice gives the same state as calling it once. -/
theorem stop_sets_flag_only {ThreadBase : Type} (t : LeicaMonitoringThread ThreadBase) :
    (Stop t).stop_ = true ∧
      ((Stop t).port_ = t.port_ ∧ (Stop t).intervalUs_ = t.intervalUs_ ∧
        (Stop t).device_ = t.device_ ∧ (Stop t).core_ = t.core_ ∧
        (Stop t).toMMDeviceThreadBase = t.toMMDeviceThreadBase) ∧
      Stop (Stop t) = Stop t :=
  ⟨rfl, ⟨rfl, rfl, rfl, rfl, rfl⟩, rfl⟩

/-! ### Signature matching -/

/-- Both bytes of a window position are there and equal exactly when the comparison of
`signatureFound` at that position succeeds. -/
theorem window_position_eq (answer signature : List UByte) (signatureStart i : Nat) :
    (match answer[signatureStart + i]?, signature[i]? with
      | some a, some s => a == s
      | _, _ => false) = true ↔
    ∃ b, answer[signatureStart + i]? = some b ∧ signature[i]? = some b := by
  cases answer[signatureStart + i]? with
  | none => simp
  | some a =>
    cases signature[i]? with
    | none => simp
    | some s =>
      simp only [beq_iff_eq, Option.some.injEq]
      exact ⟨fun h => ⟨a, rfl, h.symm⟩, fun ⟨_, hb, hs⟩ => hb.trans hs.symm⟩

/-- What `signatureFound` computes: it is true exactly when every position of the window
holds a byte of the candidate buffer that equals the byte of the pattern. -/
theorem signatureFound_iff (answer signature : List UByte) (signatureStart signatureLength : Nat) :
    signatureFound answer signature signatureStart signatureLength = true ↔
      ∀ i, i < signatureLength →
        ∃ b, answer[signatureStart + i]? = some b ∧ signature[i]? = some b := by
  unfold signatureFound
  rw [List.all_eq_true]
  constructor
  · intro h i hi
    exact (window_position_eq answer signature signatureStart i).1 (h i (List.mem_range.2 hi))
  · intro h i hi
    exact (window_position_eq answer signature signatureStart i).2 (h i (List.mem_range.1 hi))

/-- C5: `signatureFound` returns true only if every byte of the window of
`signatureLength` bytes of the candidate buffer that begins at `signatureStart` equals the
corresponding byte of the signature pattern; a single position of the window whose bytes
differ makes it return false. -/
theorem signatureFound_only_if_window_matches (answer signature : List UByte)
    (signatureStart signatureLength : Nat) :
    (signatureFound answer signature signatureStart signatureLength = true →
      ∀ i, i < signatureLength →
        ∃ b, answer[signatureStart + i]? = some b ∧ signature[i]? = some b) ∧
    (∀ i, i < signatureLength → answer[signatureStart + i]? ≠ signature[i]? →
      signatureFound answer signature signatureStart signatureLength = false) := by
  refine ⟨(signatureFound_iff answer signature signatureStart signatureLength).1, ?_⟩
  intro i hi hne
  cases hf : signatureFound answer signature signatureStart signatureLength with
  | false => rfl
  | true =>
    obtain ⟨b, hb, hs⟩ := (signatureFound_iff answer signature signatureStart signatureLength).1 hf i hi
    exact absurd (hb.trans hs.symm) hne

/-- C5 at a concrete input: the window `[2, 3]` at offset 1 of `[1, 2, 3]` matches the
pattern `[2, 3]`, and with the pattern `[2, 4]` the second position differs and the result
is false. -/
theorem signatureFound_only_if_window_matches_witness :
    signatureFound [1, 2, 3] [2, 3] 1 2 = true ∧
      (∀ i, i < 2 → ∃ b, ([1, 2, 3] : List UByte)[1 + i]? = some b ∧
        ([2, 3] : List UByte)[i]? = some b) ∧
      signatureFound [1, 2, 3] [2, 4] 1 2 = false :=
  ⟨by decide,
    (signatureFound_only_if_window_matches [1, 2, 3] [2, 3] 1 2).1 (by decide),
    (signatureFound_only_if_window_matches [1, 2, 3] [2, 4] 1 2).2 1 (by decide) (by decide)⟩

/-! ### The framer -/

/-- A message that the scan returns has at most `messageMaxLength_` bytes. -/
theorem scan_some_length_le (w : WireFormat) (stream : List UByte) (fuel index : Nat)
    (m : List UByte) (h : (scan w stream fuel index).1 = some m) :
    m.length ≤ messageMaxLength_ := by
  induction fuel generalizing index with
  | zero => simp [scan] at h
  | succ fuel ih =>
    unfold scan at h
    split at h
    · simp at h
    · split at h
      · split at h
        · simp at h
        · split at h
          · rename_i len _ hlen
            simp only [Option.some.injEq] at h
            rw [← h, List.length_take]
            exact le_trans (Nat.min_le_left _ _) hlen
          · exact ih _ h
      · exact ih _ h

/-- At a position where the scan ends it reports "no message yet" and stays, whatever
number of steps it is allowed. -/
theorem scan_of_stops (w : WireFormat) (stream : List UByte) (fuel index : Nat)
    (h : Stops w stream index) : scan w stream fuel index = (none, index) := by
  cases fuel with
  | zero => rfl
  | succ fuel =>
    unfold scan
    rcases h with h | ⟨hsig, hspan⟩
    · rw [if_pos h]
    · by_cases hroom : stream.length < index + w.signature.length
      · rw [if_pos hroom]
      · rw [if_neg hroom, if_pos hsig, hspan]

/-- A scan that is allowed enough steps and reports "no message yet" has stopped at the
cursor position it returns. -/
theorem stops_of_scan_none (w : WireFormat) (stream : List UByte) (fuel index : Nat)
    (hfuel : stream.length < fuel + index) (h : (scan w stream fuel index).1 = none) :
    Stops w stream (scan w stream fuel index).2 := by
  induction fuel generalizing index with
  | zero =>
    left
    simp only [scan]
    omega
  | succ fuel ih =>
    unfold scan at h ⊢
    split
    · rename_i hroom
      exact Or.inl hroom
    · rename_i hroom
      rw [if_neg hroom] at h
      split
      · rename_i hsig
        rw [if_pos hsig] at h
        split
        · rename_i hspan
          exact Or.inr ⟨hsig, hspan⟩
        · rename_i len hspan
          rw [hspan] at h
          split
          · rename_i hlen
            simp [hlen] at h
          · rename_i hlen
            simp only [hlen, if_false] at h
            exact ih _ (by unfold messageMaxLength_ at hlen; omega) h
      · rename_i hsig
        rw [if_neg hsig] at h
        exact ih _ (by omega) h

/-- The bound on the number of steps is never what ends a scan of `GetNextMessage`: once
the bound exceeds the number of bytes from the cursor to the end of the input, a larger
bound gives the same result. -/
theorem scan_succ_fuel (w : WireFormat) (stream : List UByte) (fuel index : Nat)
    (hfuel : stream.length < fuel + index) :
    scan w stream (fuel + 1) index = scan w stream fuel index := by
  induction fuel generalizing index with
  | zero =>
    unfold scan
    rw [if_pos (by omega)]
  | succ fuel ih =>
    conv_lhs => unfold scan
    conv_rhs => unfold scan
    split
    · rfl
    · split
      · split
        · rfl
        · split
          · rfl
          · rename_i hlen
            exact ih _ (by unfold messageMaxLength_ at hlen; omega)
      · exact ih _ (by omega)

/-- A call of `GetNextMessage` leaves the input as it is: only the cursor moves. -/
theorem getNextMessage_stream (w : WireFormat) (p : LeicaMessageParser) :
    (GetNextMessage w p).2.stream = p.stream := rfl

/-- A call that reports "no message yet" leaves the cursor at a position where the scan
ends. -/
theorem stops_of_getNextMessage_none (w : WireFormat) (p : LeicaMessageParser)
    (h : (GetNextMessage w p).1 = none) :
    Stops w p.stream (GetNextMessage w p).2.index_ :=
  stops_of_scan_none w p.stream (p.stream.length + 1) p.index_ (by omega) h

/-- A call on a parser whose cursor is at a position where the scan ends reports "no
message yet" and returns the parser as it was. -/
theorem getNextMessage_of_stops (w : WireFormat) (p : LeicaMessageParser)
    (h : Stops w p.stream p.index_) : GetNextMessage w p = (none, p) := by
  unfold GetNextMessage
  rw [scan_of_stops w p.stream _ p.index_ h]

/-- C4: idempotent polling. Once `GetNextMessage` has reported that no message is
available, every further call on the same input (the first further call, and the one
after any number `k` of further calls) again reports that no message is available and
returns the parser in the state the first such report left it in: the cursor and the
input are unchanged, so the result of any later call is the same too. -/
theorem getNextMessage_idempotent_polling (w : WireFormat) (p : LeicaMessageParser)
    (h : (GetNextMessage w p).1 = none) (k : Nat) :
    GetNextMessage w ((fun q => (GetNextMessage w q).2)^[k] (GetNextMessage w p).2) =
      (none, (GetNextMessage w p).2) := by
  have hstop : Stops w (GetNextMessage w p).2.stream (GetNextMessage w p).2.index_ :=
    stops_of_getNextMessage_none w p h
  have hfix : GetNextMessage w (GetNextMessage w p).2 = (none, (GetNextMessage w p).2) :=
    getNextMessage_of_stops w _ hstop
  have hiter : (fun q => (GetNextMessage w q).2)^[k] (GetNextMessage w p).2 =
      (GetNextMessage w p).2 := by
    apply Function.iterate_fixed
    show (GetNextMessage w (GetNextMessage w p).2).2 = (GetNextMessage w p).2
    rw [hfix]
  rw [hiter, hfix]

/-- C4 at a concrete input: behind the message `10 02 05 03` the input `07 10` holds no
complete signature; the second call reports "no message yet" with the cursor at 5, and
so does the call after three more. -/
theorem getNextMessage_idempotent_polling_witness :
    (GetNextMessage exampleFormat
        (GetNextMessage exampleFormat (init [0x10, 0x02, 0x05, 0x03, 0x07, 0x10] 6)).2).1 = none ∧
      GetNextMessage exampleFormat
          ((fun q => (GetNextMessage exampleFormat q).2)^[3]
            (GetNextMessage exampleFormat
              (GetNextMessage exampleFormat (init [0x10, 0x02, 0x05, 0x03, 0x07, 0x10] 6)).2).2) =
        (none, { inputStream_ := [0x10, 0x02, 0x05, 0x03, 0x07, 0x10], inputStreamLength_ := 6,
                 index_ := 5 }) :=
  ⟨by decide,
    getNextMessage_idempotent_polling exampleFormat
      (GetNextMessage exampleFormat (init [0x10, 0x02, 0x05, 0x03, 0x07, 0x10] 6)).2
      (by decide) 3⟩

/-- Where the input, from `index` on, begins with the pattern, `signatureFound` matches
the whole pattern at `index`. -/
theorem signatureFound_of_prefix_drop (stream signature : List UByte) (index : Nat)
    (h : signature <+: stream.drop index) :
    signatureFound stream signature index signature.length = true := by
  rw [signatureFound_iff]
  intro i hi
  obtain ⟨t, ht⟩ := h
  refine ⟨signature[i], ?_, List.getElem?_eq_getElem hi⟩
  rw [← List.getElem?_drop, ← ht, List.getElem?_append_left hi, List.getElem?_eq_getElem hi]

/-- One step of the scan at the start of a span of at most `messageMaxLength_` bytes: the
span is the message, and the cursor moves past it. -/
theorem scan_at_message (w : WireFormat) (before span rest : List UByte) (fuel : Nat)
    (hspan : IsSpan w span) (hlen : span.length ≤ messageMaxLength_) :
    scan w (before ++ span ++ rest) (fuel + 1) before.length =
      (some span, before.length + span.length) := by
  obtain ⟨hpre, hrule⟩ := hspan
  have hdrop : (before ++ span ++ rest).drop before.length = span ++ rest := by
    rw [List.append_assoc, List.drop_left]
  have hroom : ¬ (before ++ span ++ rest).length < before.length + w.signature.length := by
    have := hpre.length_le
    simp only [List.length_append]
    omega
  have hsig : signatureFound (before ++ span ++ rest) w.signature before.length
      w.signature.length = true :=
    signatureFound_of_prefix_drop _ _ _ (by rw [hdrop]; exact hpre.trans (List.prefix_append _ _))
  unfold scan
  rw [if_neg hroom, if_pos hsig, hdrop, hrule rest]
  simp only [hlen, if_true, List.take_left]

/-- One step of the scan at the start of a span of more than `messageMaxLength_` bytes:
the span is skipped, and the scan goes on behind it. -/
theorem scan_at_overlong (w : WireFormat) (before span rest : List UByte) (fuel : Nat)
    (hspan : IsSpan w span) (hlen : messageMaxLength_ < span.length) :
    scan w (before ++ span ++ rest) (fuel + 1) before.length =
      scan w (before ++ span ++ rest) fuel (before.length + span.length) := by
  obtain ⟨hpre, hrule⟩ := hspan
  have hdrop : (before ++ span ++ rest).drop before.length = span ++ rest := by
    rw [List.append_assoc, List.drop_left]
  have hroom : ¬ (before ++ span ++ rest).length < before.length + w.signature.length := by
    have := hpre.length_le
    simp only [List.length_append]
    omega
  have hsig : signatureFound (before ++ span ++ rest) w.signature before.length
      w.signature.length = true :=
    signatureFound_of_prefix_drop _ _ _ (by rw [hdrop]; exact hpre.trans (List.prefix_append _ _))
  conv_lhs => unfold scan
  rw [if_neg hroom, if_pos hsig, hdrop, hrule rest]
  simp only [Nat.not_le.2 hlen, if_false]

/-- C3: every message that `GetNextMessage` returns has at most `messageMaxLength_` = 64
bytes, on every input and from every cursor position; and a span of more than 64 bytes is
skipped as noise: on a stream that consists of an over-length span followed by a valid
message the first call returns the valid message and the second call reports that no
message is available, so the over-length span is never returned. -/
theorem getNextMessage_length_le_and_resync (w : WireFormat) :
    (∀ (p : LeicaMessageParser) (m : List UByte),
      (GetNextMessage w p).1 = some m → m.length ≤ messageMaxLength_) ∧
    (∀ over valid : List UByte,
      IsSpan w over → messageMaxLength_ < over.length →
      IsSpan w valid → valid.length ≤ messageMaxLength_ →
      (GetNextMessage w (init (over ++ valid) (over ++ valid).length)).1 = some valid ∧
      (GetNextMessage w
        (GetNextMessage w (init (over ++ valid) (over ++ valid).length)).2).1 = none) := by
  refine ⟨fun p m h => scan_some_length_le w p.stream _ p.index_ m h, ?_⟩
  intro over valid hover hlong hvalid hshort
  have hstream : (init (over ++ valid) (over ++ valid).length).stream = over ++ valid := by
    simp [init, stream]
  have hfirst : scan w (over ++ valid) ((over ++ valid).length + 1) 0 =
      (some valid, (over ++ valid).length) := by
    have h1 := scan_at_overlong w [] over valid (over ++ valid).length hover hlong
    have h2 := scan_at_message w over valid [] (over.length + valid.length - 1) hvalid hshort
    have hpos : over.length + valid.length - 1 + 1 = (over ++ valid).length := by
      unfold messageMaxLength_ at hlong
      simp only [List.length_append]
      omega
    simp only [List.nil_append, List.length_nil, Nat.zero_add] at h1
    simp only [List.append_nil, hpos] at h2
    rw [h1, h2, List.length_append]
  have hcall : GetNextMessage w (init (over ++ valid) (over ++ valid).length) =
      (some valid, { init (over ++ valid) (over ++ valid).length with
        index_ := (over ++ valid).length }) := by
    unfold GetNextMessage
    have hzero : (init (over ++ valid) (over ++ valid).length).index_ = 0 := rfl
    rw [hstream, hzero, hfirst]
  refine ⟨by rw [hcall], ?_⟩
  rw [hcall]
  have hstops : Stops w (over ++ valid) (over ++ valid).length := by
    left
    have := List.length_pos.2 w.signature_ne_nil
    omega
  have := getNextMessage_of_stops w
    { init (over ++ valid) (over ++ valid).length with index_ := (over ++ valid).length }
    (by
      show Stops w (init (over ++ valid) (over ++ valid).length).stream (over ++ valid).length
      rw [hstream]
      exact hstops)
  rw [this]

/-- C3 at a concrete input: the span `10 02 00 ... 00 03` of 69 bytes is over-length and
`10 02 05 03` is a valid message; the stream of the two yields that message and then
nothing. -/
theorem getNextMessage_length_le_and_resync_witness :
    (GetNextMessage exampleFormat
        (init (([0x10, 0x02] ++ List.replicate 66 0x00 ++ [0x03]) ++ [0x10, 0x02, 0x05, 0x03])
          (([0x10, 0x02] ++ List.replicate 66 0x00 ++ [0x03]) ++
            [0x10, 0x02, 0x05, 0x03]).length)).1 = some [0x10, 0x02, 0x05, 0x03] ∧
      (GetNextMessage exampleFormat
        (GetNextMessage exampleFormat
          (init (([0x10, 0x02] ++ List.replicate 66 0x00 ++ [0x03]) ++ [0x10, 0x02, 0x05, 0x03])
            (([0x10, 0x02] ++ List.replicate 66 0x00 ++ [0x03]) ++
              [0x10, 0x02, 0x05, 0x03]).length)).2).1 = none :=
  (getNextMessage_length_le_and_resync exampleFormat).2
    ([0x10, 0x02] ++ List.replicate 66 0x00 ++ [0x03]) [0x10, 0x02, 0x05, 0x03]
    ⟨by decide, fun _ => rfl⟩ (by decide) ⟨by decide, fun _ => rfl⟩ (by decide)

end LeicaDMI
